import Mathlib

/-!
Shallow embedding of the bulk-audio retrieval core of `vk_api/audio.py`
(identity extraction, rate-limited batch resolution, URL normalization,
pagination drivers), together with theorems settling the specification
claims about it.

External collaborators (the `bs4` HTML/text extractor, the
`audio_url_decoder.decode_audio_url` function living in a different
module, and the HTTP session) are modelled as abstract function
parameters / response oracles: the code under verification only calls
them through a narrow contract.
-/

namespace VkApiAudio

/-- Python exception kinds raised by the modelled code paths. -/
inductive PyErr : Type
  | accessDenied
  | indexError
  | keyError
deriving DecidableEq, Repr

/-- The positional audio-tuple fields that the core actually reads
(`AUDIO_TUPLE` indices ID, OWNER_ID, URL, TITLE, PERFORMER, DURATION,
HASHES, COVER_URL, CONTEXT).  In the upstream payload the record is a
positional array; here we name the consumed positions. -/
structure Audio where
  id : Int
  owner_id : Int
  url : String
  title : String
  performer : String
  duration : Int
  hashes : String
  cover_url : String
  context : String
deriving DecidableEq, Repr

/-- A track identity: `(str(owner_id), str(id), hash_token_2, hash_token_5)`,
as built by `scrap_ids` (audio.py lines 649-652). -/
abbrev Ident := String × String × String × String

/-- Python truthiness of a string: non-empty. -/
def pyTruthy (s : String) : Bool := !(s == "")

/-- Worker for Python `str.split(sep)` with a one-character separator:
cut at every occurrence of the separator, keeping empty pieces. -/
def pySplitAux (sep : Char) : List Char → List Char → List (List Char)
  | [], acc => [acc.reverse]
  | c :: cs, acc =>
    if c == sep then acc.reverse :: pySplitAux sep cs []
    else pySplitAux sep cs (c :: acc)

/-- The slash character, the separator of the HASHES field. -/
def slashChar : Char := Char.ofNat 47

/-- Python `s.split(sep)` for a one-character separator (the source only
splits on a slash and on a comma).  `"".split(sep)` gives one empty
piece, and adjacent separators give empty pieces, as in Python. -/
def pySplit (sep : Char) (s : String) : List String :=
  (pySplitAux sep s.data []).map List.asString

/-- Truthiness of the whole 4-tuple, i.e. Python `all(full_id)`
(audio.py line 653). -/
def pyTruthy4 (i : Ident) : Bool :=
  pyTruthy i.1 && pyTruthy i.2.1 && pyTruthy i.2.2.1 && pyTruthy i.2.2.2

/-- The identity `scrap_ids` builds for one record, provided the hashes
field splits into enough tokens (audio.py lines 647-652).  Returns
`none` when the record is kept out of the output by the `all(full_id)`
check; raises (modelled by the caller) when position 2 or 5 is out of
range. -/
def mkIdent (t : Audio) (h : 5 < (pySplit (slashChar) t.hashes).length) : Ident :=
  (toString t.owner_id, toString t.id,
    (pySplit (slashChar) t.hashes).get ⟨2, by omega⟩,
    (pySplit (slashChar) t.hashes).get ⟨5, h⟩)

/-- `scrap_ids` (audio.py lines 642-656): for each record split the
HASHES field on a slash, read tokens 2 and 5 (Python raises `IndexError`
when the split has fewer than 6 tokens), build the 4-tuple and keep it
only when every component is truthy. -/
def scrapIds : List Audio → Except PyErr (List Ident)
  | [] => Except.ok []
  | t :: rest =>
    if h : 5 < (pySplit (slashChar) t.hashes).length then
      let fid := mkIdent t h
      match scrapIds rest with
      | Except.error e => Except.error e
      | Except.ok ids =>
          Except.ok (if pyTruthy4 fid then fid :: ids else ids)
    else
      Except.error PyErr.indexError

/-- The per-record loop body of `scrap_ids_from_html` (audio.py lines
685-698): identical index accesses and `all(full_id)` filter, applied to
the records decoded from the `data-audio` node attributes.  The `bs4`
node scan and the `audio_item_disabled` filtering happen before this
loop; its input is the list of decoded records of the surviving nodes. -/
def scrapIdsFromHtmlRecords : List Audio → Except PyErr (List Ident)
  | [] => Except.ok []
  | t :: rest =>
    if h : 5 < (pySplit (slashChar) t.hashes).length then
      let fid := mkIdent t h
      match scrapIdsFromHtmlRecords rest with
      | Except.error e => Except.error e
      | Except.ok ids =>
          Except.ok (if pyTruthy4 fid then fid :: ids else ids)
    else
      Except.error PyErr.indexError

/-- The optional identity contributed by one record: the 4-tuple when
the hashes field splits far enough and all components are truthy,
nothing when the record is dropped by the `all(full_id)` check. -/
def identOpt (t : Audio) : Option Ident :=
  if h : 5 < (pySplit slashChar t.hashes).length then
    if pyTruthy4 (mkIdent t h) then some (mkIdent t h) else none
  else none

/-! ### The m3u8-to-mp3 URL rewrite

`RE_M3U8_TO_MP3 = re.compile(r'/[0-9a-f]+(/audios)?/([0-9a-f]+)/index.m3u8')`
applied with `RE_M3U8_TO_MP3.sub(r'\\1/\\2.mp3', link)` (audio.py lines 24
and 735-736).  The matcher below implements this fixed pattern with
Python `re` semantics.  Backtracking note: each `[0-9a-f]+` run is
followed in the pattern by a literal slash (group present or absent),
and a slash is not a hex digit, so the greedy maximal run is the only
run that can extend to a full match; the only real alternative is the
optional `(/audios)` group, which Python tries present first and then
absent, as `matchTail` does. -/

/-- `[0-9a-f]` character class. -/
def isHexDigit (c : Char) : Bool :=
  (Char.ofNat 48 ≤ c && c ≤ Char.ofNat 57) || (Char.ofNat 97 ≤ c && c ≤ Char.ofNat 102)

/-- Maximal run of `[0-9a-f]` characters and the remaining input. -/
def hexRun : List Char → List Char × List Char
  | [] => ([], [])
  | c :: cs =>
    if isHexDigit c then
      let p := hexRun cs
      (c :: p.1, p.2)
    else ([], c :: cs)

/-- Matches `/[0-9a-f]+` (a slash then a non-empty hex run), returning
the run and the remaining input. -/
def matchSlashHex (s : List Char) : Option (List Char × List Char) :=
  match s with
  | c :: rest =>
    if c == slashChar then
      let p := hexRun rest
      if p.1.isEmpty then none else some (p.1, p.2)
    else none
  | [] => none

/-- Matches the literal tail `/index` , any one character (the
unescaped dot of the pattern), then `m3u8`. -/
def matchIndexM3u8 (s : List Char) : Option (List Char) :=
  match s with
  | c0 :: c1 :: c2 :: c3 :: c4 :: c5 :: _ :: c7 :: c8 :: c9 :: c10 :: r =>
    if [c0, c1, c2, c3, c4, c5] == "/index".data
        && [c7, c8, c9, c10] == "m3u8".data
    then some r else none
  | _ => none

/-- Matches `/([0-9a-f]+)/index.m3u8`, returning the captured group 2
and the remaining input. -/
def matchSuffix (s : List Char) : Option (List Char × List Char) :=
  match matchSlashHex s with
  | none => none
  | some (g2, r1) =>
    match matchIndexM3u8 r1 with
    | none => none
    | some r2 => some (g2, r2)

/-- Matches the literal `/audios`, returning the remaining input. -/
def matchAudios (s : List Char) : Option (List Char) :=
  match s with
  | c0 :: c1 :: c2 :: c3 :: c4 :: c5 :: c6 :: r =>
    if [c0, c1, c2, c3, c4, c5, c6] == "/audios".data then some r else none
  | _ => none

/-- Matches `(/audios)?/([0-9a-f]+)/index.m3u8`: the optional group is
tried present first, falling back to absent, as Python does.  Returns
(group 1 present?, group 2, remaining input). -/
def matchTail (s : List Char) : Option (Bool × List Char × List Char) :=
  match matchAudios s with
  | some r1 =>
    match matchSuffix r1 with
    | some (g2, r2) => some (true, g2, r2)
    | none => (matchSuffix s).map (fun p => (false, p.1, p.2))
  | none => (matchSuffix s).map (fun p => (false, p.1, p.2))

/-- Attempts the whole pattern `/[0-9a-f]+(/audios)?/([0-9a-f]+)/index.m3u8`
at the head of the input. -/
def matchPatternAt (s : List Char) : Option (Bool × List Char × List Char) :=
  match matchSlashHex s with
  | none => none
  | some (_, r1) => matchTail r1

/-- The replacement template `\\1/\\2.mp3`: group 1 (empty when the
optional `/audios` did not participate), a slash, group 2, `.mp3`. -/
def m3u8Replacement (g1 : Bool) (g2 : List Char) : List Char :=
  (if g1 then "/audios".data else []) ++ slashChar :: (g2 ++ ".mp3".data)

/-- Does the pattern match at any position of the input? -/
def anyMatch : List Char → Bool
  | [] => false
  | c :: cs => (matchPatternAt (c :: cs)).isSome || anyMatch cs

/-- `re.sub` scanning: at each position try the pattern; on a match emit
the replacement and continue after the consumed text, otherwise keep one
character and move on.  Fuel-indexed for structural recursion; every
successful match consumes at least one character, so fuel equal to the
input length is enough and the zero-fuel branch is never reached from
`reM3u8ToMp3Sub`. -/
def m3u8SubFuel : Nat → List Char → List Char
  | 0, s => s
  | _, [] => []
  | f + 1, c :: cs =>
    match matchPatternAt (c :: cs) with
    | some (g1, g2, r) => m3u8Replacement g1 g2 ++ m3u8SubFuel f r
    | none => c :: m3u8SubFuel f cs

/-- `RE_M3U8_TO_MP3.sub(r'\\1/\\2.mp3', link)`. -/
def reM3u8ToMp3Sub (link : String) : String :=
  (m3u8SubFuel link.data.length link.data).asString

/-- Python substring test `pat in s`. -/
def containsSeq (pat : List Char) : List Char → Bool
  | [] => pat.isEmpty
  | c :: rest => pat.isPrefixOf (c :: rest) || containsSeq pat rest

/-- The m3u8 conversion step of `scrap_tracks` (audio.py lines 735-736):
applied only when the construction-time toggle is on and the literal
text `m3u8` occurs in the link. -/
def m3u8Normalize (convert : Bool) (link : String) : String :=
  if convert && containsSeq "m3u8".data link.data then reM3u8ToMp3Sub link
  else link

/-! ### The rate-limited batch resolver `scrap_tracks`
(audio.py lines 707-747).

The HTTP collaborator is a response oracle mapping the index of the
resolving request to its parsed JSON body; `dur k` is the wall-clock
time (seconds, as a rational) the k-th request takes from issue to the
`time.time()` call on line 723, and `ext k` is the time the consumer of
the generator spends between chunk k and the next pull.  The clock and
the `last_request` variable are carried explicitly. -/

/-- The comma character, the separator of the COVER_URL field. -/
def commaChar : Char := Char.ofNat 44

/-- The normalized output record yielded by `scrap_tracks`
(audio.py lines 738-747). -/
structure Track where
  id : Int
  owner_id : Int
  track_covers : List String
  url : String
  artist : String
  title : String
  duration : Int
deriving DecidableEq, Repr

/-- `bsoup_trackinfo` (audio.py lines 703-704) applied through an
abstract `bs4` text extractor: the performer as-is and the stripped
title are both run through `BeautifulSoup(...).text`. -/
def bsoupTrackinfo (bsoup : String → String) (performer title : String) :
    String × String :=
  (bsoup performer, bsoup title.trim)

/-- Decoding one resolved record into a Track (audio.py lines 726-747):
HTML-extract performer/title, decode an `audio_api_unavailable` link via
the external `decode_audio_url` collaborator, apply the m3u8 rewrite,
split the cover list on commas when truthy. -/
def decodeAudio (bsoup : String → String) (decodeUrl : String → Int → String)
    (userId : Int) (convert : Bool) (a : Audio) : Track :=
  { id := a.id
    owner_id := a.owner_id
    track_covers := if pyTruthy a.cover_url then pySplit commaChar a.cover_url else []
    url := m3u8Normalize convert
      (if containsSeq "audio_api_unavailable".data a.url.data
       then decodeUrl a.url userId else a.url)
    artist := (bsoupTrackinfo bsoup a.performer a.title).1
    title := (bsoupTrackinfo bsoup a.performer a.title).2
    duration := a.duration }

/-- The chunking comprehension
`[ids[i:i + 10] for i in range(0, len(ids), 10)]` (audio.py line 711):
`range(0, n, 10)` has `(n + 9) / 10` elements `i = 10 * k`. -/
def chunksOf10 (ids : List Ident) : List (List Ident) :=
  (List.range ((ids.length + 9) / 10)).map (fun k => (ids.drop (10 * k)).take 10)

/-- Python underscore-join of one identity tuple (audio.py line 720). -/
def identPayload (i : Ident) : String :=
  String.intercalate "_" [i.1, i.2.1, i.2.2.1, i.2.2.2]

/-- Python comma-join of the underscore-joined tuples of one chunk
(audio.py lines 719-720). -/
def chunkPayload (c : List Ident) : String :=
  String.intercalate "," (c.map identPayload)

/-- `RPS_DELAY_RELOAD_AUDIO = 1.5` (audio.py line 29). -/
def rpsDelayReloadAudio : ℚ := 3 / 2

/-- The parsed JSON body of one `act=reload_audio` response.  `data?`
is the value of its "data" member: `none` models a body with no "data"
key (so the subscript on line 724 raises `KeyError`); a JSON `null`
value behaves exactly like `some []` here (both are falsy), so it is
folded into it.  `dur` is the request round-trip time. -/
structure ReloadResponse where
  data? : Option (List (List Audio))
  dur : ℚ

/-- The clock after `time.sleep(delay)` on lines 712-715: sleep for
`RPS_DELAY_RELOAD_AUDIO - (now - last_request)` when positive. -/
def sleepClock (t last : ℚ) : ℚ :=
  if 0 < rpsDelayReloadAudio - (t - last) then t + (rpsDelayReloadAudio - (t - last))
  else t

/-- The chunk loop of `scrap_tracks` (audio.py lines 711-747) over an
explicit chunk list: pace, issue the request (recording its payload and
start time), set `last_request` to the completion time, then either
raise `KeyError` (no "data" key), skip a falsy envelope, or decode and
yield `result['data'][0]`.  Tracks stream in chunk order. -/
def scrapTracksGo (oracle : Nat → ReloadResponse) (ext : Nat → ℚ)
    (dec : Audio → Track) :
    Nat → ℚ → ℚ → List (List Ident) →
      List (String × ℚ) × Except PyErr (List Track)
  | _, _, _, [] => ([], Except.ok [])
  | k, t, last, c :: cs =>
    let t1 := sleepClock t last
    let t2 := t1 + (oracle k).dur
    match (oracle k).data? with
    | none => ([(chunkPayload c, t1)], Except.error PyErr.keyError)
    | some data =>
      let ys : List Track :=
        match data with
        | [] => []
        | d0 :: _ => d0.map dec
      let rest := scrapTracksGo oracle ext dec (k + 1) (t2 + ext k) t2 cs
      ((chunkPayload c, t1) :: rest.1, rest.2.map (fun zs => ys ++ zs))

/-- `scrap_tracks(ids, user_id, http, convert_m3u8_links)`: chunk the
identities by the range comprehension and run the loop with
`last_request = 0.0` and the starting clock `t0` (the value
`time.time()` returns at the first pacing computation). -/
def scrapTracks (oracle : Nat → ReloadResponse) (ext : Nat → ℚ)
    (bsoup : String → String) (decodeUrl : String → Int → String)
    (userId : Int) (convert : Bool) (t0 : ℚ) (ids : List Ident) :
    List (String × ℚ) × Except PyErr (List Track) :=
  scrapTracksGo oracle ext (decodeAudio bsoup decodeUrl userId convert)
    0 t0 0 (chunksOf10 ids)

/-! ### Pagination drivers.

Each driver is a Python generator around an HTTP page oracle.  The
`while True` loops are modelled with a fuel argument: `none` means the
fuel ran out before the loop finished, so a terminating run is exactly
one whose result stabilizes at `some _` for all large enough fuel.  The
resolver sub-call (`scrap_tracks`, modelled separately above) appears as
an abstract `resolve` function.  Yielded items are either raw records
(`Sum.inl`) or resolved tracks (`Sum.inr`). -/

/-- `TRACKS_PER_USER_PAGE = 2000` (audio.py line 32); the album page
size on line 33 has the same value. -/
def TRACKS_PER_USER_PAGE : Nat := 2000

/-- The in-place rewrite applied to a raw record before yielding it
(audio.py lines 171-174 and 410-412): PERFORMER and TITLE are replaced
by the `bsoup_trackinfo` pair. -/
def rawAudio (bsoup : String → String) (a : Audio) : Audio :=
  { a with
    performer := (bsoupTrackinfo bsoup a.performer a.title).1
    title := (bsoupTrackinfo bsoup a.performer a.title).2 }

/-- `response['data'][0]` of one `act=load_section` response:
`nonEmpty` is the Python truthiness of the container (falsy means the
driver raises `AccessDenied`), `hasMore` and `list` are the members the
loop reads. -/
structure SectionPage where
  nonEmpty : Bool
  hasMore : Bool
  list : List Audio

/-- Prepends a request offset and a block of yields onto the result of
the rest of a driver run. -/
def consRun (o : Nat) (ys : List (Audio ⊕ Track)) :
    Option (List Nat × Except PyErr (List (Audio ⊕ Track))) →
      Option (List Nat × Except PyErr (List (Audio ⊕ Track)))
  | none => none
  | some (os, e) => some (o :: os, e.map (fun zs => ys ++ zs))

/-- The `while True` loop of `get_iter` (audio.py lines 145-193),
transcribed clause by clause.  State: remaining fuel, the `offset`
variable, and the previous response (`none` before the first request).
Loop top (lines 146-149): with a previous response, advance the offset
by `d` when it said `hasMore`, otherwise break.  Then issue the request
(recording its offset), raise `AccessDenied` on a falsy container
(lines 165-168); in raw mode yield the rewritten records and continue
(lines 170-175); otherwise extract identities (`scrap_ids` may raise),
break on an empty identity list (lines 180-181), yield the resolved
tracks, and at the loop bottom (lines 190-193) advance the offset again
by `d` when `hasMore` else break.  (Note the offset is advanced both at
the loop bottom and at the next loop top in the non-raw path.) -/
def getIterGo (pages : Nat → SectionPage) (bsoup : String → String)
    (resolve : List Ident → List Track) (raw : Bool) (d : Nat) :
    Nat → Nat → Option SectionPage →
      Option (List Nat × Except PyErr (List (Audio ⊕ Track)))
  | 0, _, _ => none
  | fuel + 1, offset, prev =>
    let offset2 := match prev with
      | some r => if r.hasMore then offset + d else offset
      | none => offset
    let brk : Bool := match prev with
      | some r => !r.hasMore
      | none => false
    if brk then some ([], Except.ok [])
    else
      let r := pages offset2
      if !r.nonEmpty then some ([offset2], Except.error PyErr.accessDenied)
      else if raw then
        consRun offset2 (r.list.map (fun a => Sum.inl (rawAudio bsoup a)))
          (getIterGo pages bsoup resolve raw d fuel offset2 (some r))
      else
        match scrapIds r.list with
        | Except.error e => some ([offset2], Except.error e)
        | Except.ok ids =>
          if ids.isEmpty then some ([offset2], Except.ok [])
          else
            let ys := (resolve ids).map Sum.inr
            if r.hasMore then
              consRun offset2 ys
                (getIterGo pages bsoup resolve raw d fuel (offset2 + d) (some r))
            else some ([offset2], Except.ok ys)

/-- `get_iter(owner_id, album_id, access_hash, raw)`: run the loop from
`offset = 0` with no previous response and the fixed page step. -/
def getIter (pages : Nat → SectionPage) (bsoup : String → String)
    (resolve : List Ident → List Track) (raw : Bool) (fuel : Nat) :
    Option (List Nat × Except PyErr (List (Audio ⊕ Track))) :=
  getIterGo pages bsoup resolve raw TRACKS_PER_USER_PAGE fuel 0 none

/-- The selected playlist of one search-catalog response:
`truthy` is the Python truthiness of
`json_response['payload'][1][1]['playlists'][desired_index]` (the
`while` condition on line 391), `list` its record list.  The page index
counts responses (the initial `act=section` request is page 0, each
`act=load_catalog_section` request the next page). -/
structure SearchPage where
  truthy : Bool
  list : List Audio

/-- The `while` loop of `search_iter` (audio.py lines 391-425),
transcribed clause by clause.  State: fuel, page index `k`, and the
`offset_left` counter.  Stop when the playlist is falsy; extract
identities (a raise propagates); stop when none; when
`offset_left + len(ids) >= offset` slice `ids` to its tail past the
requested offset if `offset_left < offset`, then yield either the whole
raw record list of the page (raw mode) or the resolved sliced
identities; finally advance `offset_left` by the length of the
(possibly sliced) `ids` variable — the pre-slice length is used only
when the page was suppressed. -/
def searchGo (pages : Nat → SearchPage) (bsoup : String → String)
    (resolve : List Ident → List Track) (raw : Bool) (offset : Nat) :
    Nat → Nat → Nat → Option (Except PyErr (List (Audio ⊕ Track)))
  | 0, _, _ => none
  | fuel + 1, k, oL =>
    if (pages k).truthy = false then some (Except.ok [])
    else
      match scrapIds (pages k).list with
      | Except.error e => some (Except.error e)
      | Except.ok ids =>
        if ids.isEmpty then some (Except.ok [])
        else if offset ≤ oL + ids.length then
          let ids2 := if oL < offset then ids.drop (offset - oL) else ids
          let ys : List (Audio ⊕ Track) :=
            if raw then (pages k).list.map (fun a => Sum.inl (rawAudio bsoup a))
            else (resolve ids2).map Sum.inr
          (searchGo pages bsoup resolve raw offset fuel (k + 1)
              (oL + ids2.length)).map (fun e => e.map (fun zs => ys ++ zs))
        else
          searchGo pages bsoup resolve raw offset fuel (k + 1) (oL + ids.length)

/-- `search_iter(q, offset, raw, search_options)`: run the loop from the
first response with `offset_left = 0`. -/
def searchIter (pages : Nat → SearchPage) (bsoup : String → String)
    (resolve : List Ident → List Track) (raw : Bool) (offset : Nat)
    (fuel : Nat) : Option (Except PyErr (List (Audio ⊕ Track))) :=
  searchGo pages bsoup resolve raw offset fuel 0 0

/-- The `while True` loop of `get_news_iter` (audio.py lines 529-555).
State: fuel, page index `k`, and `offset_left`.  Each iteration fetches
the next catalog page (`pages k` is its record list), extracts
identities (a raise propagates), stops when none, yields the resolved
identities — sliced to the tail past the requested offset only when
`offset_left < offset ≤ offset_left + len(ids)`, suppressed entirely
when `offset_left + len(ids) < offset` — and advances `offset_left` by
the full (unsliced) identity count. -/
def newsGo (pages : Nat → List Audio) (resolve : List Ident → List Track)
    (offset : Nat) :
    Nat → Nat → Nat → Option (Except PyErr (List Track))
  | 0, _, _ => none
  | fuel + 1, k, oL =>
    match scrapIds (pages k) with
    | Except.error e => some (Except.error e)
    | Except.ok ids =>
      if ids.isEmpty then some (Except.ok [])
      else
        let ys := if offset ≤ oL + ids.length then
            resolve (if offset ≤ oL then ids else ids.drop (offset - oL))
          else []
        (newsGo pages resolve offset fuel (k + 1) (oL + ids.length)).map
          (fun e => e.map (fun zs => ys ++ zs))

/-! ### Concrete sample data used by witnesses and counterexamples. -/

/-- A well-formed sample record. -/
def aTest : Audio :=
  { id := 1, owner_id := 1, url := "", title := "t", performer := "p",
    duration := 0, hashes := "a/b/c/d/e/f", cover_url := "", context := "" }

/-- A well-formed sample record with distinguishable hash tokens. -/
def mkAudioN (n : Int) : Audio :=
  { id := n, owner_id := 1, url := "", title := "t", performer := "p",
    duration := 0,
    hashes := "a/b/h" ++ toString n ++ "/d/e/k" ++ toString n,
    cover_url := "", context := "" }

/-- First sample search page: 5 records. -/
def page5a : List Audio :=
  [mkAudioN 1, mkAudioN 2, mkAudioN 3, mkAudioN 4, mkAudioN 5]

/-- Second sample search page: 5 records. -/
def page5b : List Audio :=
  [mkAudioN 6, mkAudioN 7, mkAudioN 8, mkAudioN 9, mkAudioN 10]

/-- The identities of `page5a`. -/
def idents5a : List Ident :=
  [("1", "1", "h1", "k1"), ("1", "2", "h2", "k2"), ("1", "3", "h3", "k3"),
   ("1", "4", "h4", "k4"), ("1", "5", "h5", "k5")]

/-- The identities of `page5b`. -/
def idents5b : List Ident :=
  [("1", "6", "h6", "k6"), ("1", "7", "h7", "k7"), ("1", "8", "h8", "k8"),
   ("1", "9", "h9", "k9"), ("1", "10", "h10", "k10")]

/-- A search page script: two pages of 5 records, then a falsy playlist. -/
def searchPages55 : Nat → SearchPage := fun k =>
  if k = 0 then ⟨true, page5a⟩ else if k = 1 then ⟨true, page5b⟩ else ⟨false, []⟩

/-- A search page script with only the first page. -/
def searchPages5stop : Nat → SearchPage := fun k =>
  if k = 0 then ⟨true, page5a⟩ else ⟨false, []⟩

/-- A toy resolver turning each identity into one track, so yielded
track counts equal resolved identity counts. -/
def resolveIdsToy : List Ident → List Track := fun ids =>
  ids.map (fun i =>
    { id := 0, owner_id := 0, track_covers := [], url := i.2.1,
      artist := i.1, title := i.2.2.1, duration := 0 })

/-- The two extraction loops have the same body, hence the same
behaviour on equal record lists. -/
theorem fromHtml_eq_scrapIds : ∀ l, scrapIdsFromHtmlRecords l = scrapIds l := by
  intro l
  induction l with
  | nil => rfl
  | cons t rest ih =>
      simp only [scrapIdsFromHtmlRecords, scrapIds, ih]

theorem scrapIds_error_main (l : List Audio) :
    scrapIds l = Except.error PyErr.indexError ↔
      ∃ t ∈ l, (pySplit slashChar t.hashes).length < 6 := by
  induction l with
  | nil => simp [scrapIds]
  | cons t rest ih =>
      by_cases h : 5 < (pySplit slashChar t.hashes).length
      · have hstep : scrapIds (t :: rest) =
            (match scrapIds rest with
              | Except.error e => Except.error e
              | Except.ok ids =>
                  Except.ok (if pyTruthy4 (mkIdent t h) then mkIdent t h :: ids else ids)) := by
          simp only [scrapIds, dif_pos h]
        rw [hstep]
        cases hrest : scrapIds rest with
        | error e =>
            simp only [List.mem_cons]
            constructor
            · intro he
              have he2 : e = PyErr.indexError := by
                cases he
                rfl
              exact (ih.mp (he2 ▸ hrest)).elim
                (fun t2 ht2 => ⟨t2, Or.inr ht2.1, ht2.2⟩)
            · rintro ⟨t2, ht2, hlen⟩
              rcases ht2 with heq | hmem
              · exact absurd hlen (by rw [heq] at *; omega)
              · rw [ih.mpr ⟨t2, hmem, hlen⟩] at hrest
                rw [hrest]
        | ok ids =>
            simp only [List.mem_cons]
            constructor
            · intro he
              cases he
            · rintro ⟨t2, ht2, hlen⟩
              rcases ht2 with heq | hmem
              · exact absurd hlen (by rw [heq] at *; omega)
              · rw [ih.mpr ⟨t2, hmem, hlen⟩] at hrest
                cases hrest
      · have hmain : scrapIds (t :: rest) = Except.error PyErr.indexError := by
          simp only [scrapIds, dif_neg h]
        simp only [hmain, List.mem_cons]
        exact iff_of_true trivial ⟨t, Or.inl rfl, by omega⟩

example :
    scrapIds [{ id := 7, owner_id := -5, url := "", title := "", performer := "",
                duration := 0, hashes := "a/b/c/d/e/f", cover_url := "", context := "" }]
      = Except.ok [("-5", "7", "c", "f")] := rfl

example :
    scrapIds [{ id := 7, owner_id := -5, url := "", title := "", performer := "",
                duration := 0, hashes := "a/b/c/d/e", cover_url := "", context := "" }]
      = Except.error PyErr.indexError := rfl

example :
    scrapIds [{ id := 7, owner_id := -5, url := "", title := "", performer := "",
                duration := 0, hashes := "a/b//d/e/f", cover_url := "", context := "" }]
      = Except.ok [] := rfl

theorem scrapIds_ok_of_wf : ∀ l : List Audio,
    (∀ t ∈ l, 5 < (pySplit slashChar t.hashes).length) →
    scrapIds l = Except.ok (l.filterMap identOpt) := by
  intro l
  induction l with
  | nil => intro _; rfl
  | cons t rest ih =>
      intro hwf
      have ht := hwf t (List.mem_cons_self t rest)
      have hrest := ih (fun a ha => hwf a (List.mem_cons_of_mem t ha))
      simp only [scrapIds, dif_pos ht, hrest, List.filterMap_cons, identOpt]
      by_cases hp : pyTruthy4 (mkIdent t ht) = true
      · simp [hp]
      · simp [hp]

/-- C3 (amended).  Under the precondition that every record has at least
6 slash-delimited hash tokens, `scrap_ids` returns exactly the ordered,
duplicate-preserving `filterMap` of the per-record extraction, where a
record contributes its 4-tuple `(str(owner_id), str(id), hash_2, hash_5)`
iff all four components are truthy, and string truthiness means
non-empty (there is no non-zero test: the string "0" is truthy). -/
theorem scrapIds_produces_iff_truthy (l : List Audio)
    (hwf : ∀ t ∈ l, 5 < (pySplit slashChar t.hashes).length) :
    scrapIds l = Except.ok (l.filterMap identOpt)
    ∧ (∀ t, ∀ h : 5 < (pySplit slashChar t.hashes).length,
        identOpt t = if pyTruthy4 (mkIdent t h) then some (mkIdent t h) else none)
    ∧ (∀ s : String, pyTruthy s = true ↔ s ≠ "") := by
  refine ⟨scrapIds_ok_of_wf l hwf, ?_, ?_⟩
  · intro t h
    simp only [identOpt, dif_pos h]
  · intro s
    simp [pyTruthy]

/-- C3 witness: a run with a kept record, a dropped record (empty hash
token 2) and a duplicate of the kept record; order and the duplicate are
preserved and the dropped record raises nothing. -/
theorem scrapIds_produces_iff_truthy_witness :
    scrapIds
      [{ id := 7, owner_id := -5, url := "", title := "", performer := "",
         duration := 0, hashes := "a/b/c/d/e/f", cover_url := "", context := "" },
       { id := 8, owner_id := 2, url := "", title := "", performer := "",
         duration := 0, hashes := "a/b//d/e/f", cover_url := "", context := "" },
       { id := 7, owner_id := -5, url := "", title := "", performer := "",
         duration := 0, hashes := "a/b/c/d/e/f", cover_url := "", context := "" }]
      = Except.ok
          (List.filterMap identOpt
            [{ id := 7, owner_id := -5, url := "", title := "", performer := "",
               duration := 0, hashes := "a/b/c/d/e/f", cover_url := "", context := "" },
             { id := 8, owner_id := 2, url := "", title := "", performer := "",
               duration := 0, hashes := "a/b//d/e/f", cover_url := "", context := "" },
             { id := 7, owner_id := -5, url := "", title := "", performer := "",
               duration := 0, hashes := "a/b/c/d/e/f", cover_url := "", context := "" }]) :=
  (scrapIds_produces_iff_truthy _ (by decide)).1

/-- C3 counterexample: the claim requires all four components to be
"non-zero" for a tuple to be produced, but `all(full_id)` only tests
Python string truthiness, and `str(0) = "0"` is a non-empty string:
a record with integer owner id 0 still produces its tuple, whose first
component is the string "0". -/
theorem scrapIds_zero_component_kept :
    scrapIds [{ id := 1, owner_id := 0, url := "", title := "", performer := "",
                duration := 0, hashes := "a/b/c/d/e/f", cover_url := "", context := "" }]
      = Except.ok [("0", "1", "c", "f")] := rfl

/-- C9.  `scrap_ids` (and the extraction loop of `scrap_ids_from_html`)
raises `IndexError` iff some input record has fewer than 6
slash-delimited hash tokens; under the precondition that every record
has at least 6 such tokens, both run without error. -/
theorem scrapIds_indexError_iff_short (l : List Audio) :
    (scrapIds l = Except.error PyErr.indexError ↔
      ∃ t ∈ l, (pySplit slashChar t.hashes).length < 6)
    ∧ (scrapIdsFromHtmlRecords l = Except.error PyErr.indexError ↔
      ∃ t ∈ l, (pySplit slashChar t.hashes).length < 6)
    ∧ ((∀ t ∈ l, 6 ≤ (pySplit slashChar t.hashes).length) →
      ∃ ids, scrapIds l = Except.ok ids ∧ scrapIdsFromHtmlRecords l = Except.ok ids) := by
  refine ⟨scrapIds_error_main l, ?_, ?_⟩
  · rw [fromHtml_eq_scrapIds]
    exact scrapIds_error_main l
  · intro hwf
    have h6 : ∀ t ∈ l, 5 < (pySplit slashChar t.hashes).length :=
      fun t ht => by have := hwf t ht; omega
    exact ⟨l.filterMap identOpt, scrapIds_ok_of_wf l h6,
      (fromHtml_eq_scrapIds l).trans (scrapIds_ok_of_wf l h6)⟩

/-- C9 witness: a record whose hashes field has only 5 tokens raises
`IndexError`; with 6 tokens no error occurs. -/
theorem scrapIds_indexError_iff_short_witness :
    scrapIds [{ id := 7, owner_id := -5, url := "", title := "", performer := "",
                duration := 0, hashes := "a/b/c/d/e", cover_url := "", context := "" }]
      = Except.error PyErr.indexError :=
  (scrapIds_indexError_iff_short _).1.mpr
    ⟨_, List.mem_singleton.mpr rfl, by decide⟩

theorem m3u8SubFuel_id_of_noMatch :
    ∀ (s : List Char), anyMatch s = false → ∀ f, m3u8SubFuel f s = s := by
  intro s
  induction s with
  | nil =>
      intro _ f
      cases f <;> rfl
  | cons c cs ih =>
      intro h f
      have h2 : (matchPatternAt (c :: cs)).isSome = false ∧ anyMatch cs = false := by
        simpa [anyMatch] using h
      cases f with
      | zero => rfl
      | succ f =>
          have hnone : matchPatternAt (c :: cs) = none := by
            cases hm : matchPatternAt (c :: cs) with
            | none => rfl
            | some v => rw [hm] at h2; simp at h2
          simp only [m3u8SubFuel, hnone, ih h2.2 f]

/-- C4 counterexample: on the documented example URL the enabled rewrite
produces `/audios/def456.mp3`, not the claimed `/abc123/def456.mp3`: the
replacement template starts with group 1, so the leading hex segment
(which is matched but not captured) is dropped and the `/audios` segment
is kept when present. -/
theorem m3u8_rewrite_keeps_audios_segment :
    m3u8Normalize true "/abc123/audios/def456/index.m3u8" = "/audios/def456.mp3"
    ∧ m3u8Normalize true "/abc123/audios/def456/index.m3u8" ≠ "/abc123/def456.mp3" :=
  ⟨rfl, by decide⟩

/-- C4 (amended).  With the toggle enabled, a URL matching
`/<hex>/[audios/]<hex>/index.m3u8` is rewritten by replacing the whole
matched text with `<group1>/<hex>.mp3`: the leading `/<hex>` segment is
dropped and the `/audios` segment is kept if present, so the example
yields `/audios/def456.mp3` (and `/def456.mp3` without `/audios`).  With
the toggle disabled, or when the URL matches nowhere, the URL passes
through unchanged. -/
theorem m3u8Normalize_spec :
    m3u8Normalize true "/abc123/audios/def456/index.m3u8" = "/audios/def456.mp3"
    ∧ m3u8Normalize true "/abc123/def456/index.m3u8" = "/def456.mp3"
    ∧ (∀ link, m3u8Normalize false link = link)
    ∧ (∀ link, anyMatch link.data = false → m3u8Normalize true link = link) := by
  refine ⟨rfl, rfl, ?_, ?_⟩
  · intro link
    simp [m3u8Normalize]
  · intro link h
    by_cases hc : containsSeq "m3u8".data link.data
    · simp only [m3u8Normalize, hc, Bool.and_true, if_pos rfl, reM3u8ToMp3Sub,
        m3u8SubFuel_id_of_noMatch link.data h]
      exact String.asString_toList link
    · simp [m3u8Normalize, hc]

/-- C4 witness: the disabled toggle and a non-matching URL both pass
through unchanged. -/
theorem m3u8Normalize_spec_witness :
    m3u8Normalize false "/abc123/audios/def456/index.m3u8"
        = "/abc123/audios/def456/index.m3u8"
    ∧ m3u8Normalize true "no match at all" = "no match at all" :=
  ⟨m3u8Normalize_spec.2.2.1 _, m3u8Normalize_spec.2.2.2 "no match at all" (by decide)⟩

theorem chunksOf10_cons_eq (l : List Ident) (hl : l ≠ []) :
    chunksOf10 l = l.take 10 :: chunksOf10 (l.drop 10) := by
  unfold chunksOf10
  have hpos : 0 < l.length := List.length_pos.mpr hl
  have harith : (l.length + 9) / 10 = ((l.drop 10).length + 9) / 10 + 1 := by
    rw [List.length_drop]
    omega
  rw [harith, List.range_succ_eq_map]
  simp only [List.map_cons, List.map_map]
  congr 1
  apply List.map_congr_left
  intro a _
  simp only [Function.comp_apply, List.drop_drop]
  have h10 : 10 * Nat.succ a = 10 * a + 10 := by omega
  rw [h10]
  have h11 : 10 * a + 10 = 10 + 10 * a := by omega
  rw [h11]

theorem chunksOf10_join_aux :
    ∀ n : Nat, ∀ l : List Ident, l.length ≤ n → (chunksOf10 l).flatten = l := by
  intro n
  induction n with
  | zero =>
      intro l h
      have : l = [] := List.eq_nil_of_length_eq_zero (Nat.le_zero.mp h)
      subst this
      rfl
  | succ n ih =>
      intro l h
      by_cases hl : l = []
      · subst hl
        rfl
      · rw [chunksOf10_cons_eq l hl, List.flatten_cons]
        have hdrop : (l.drop 10).length ≤ n := by
          have := List.length_pos.mpr hl
          rw [List.length_drop]
          omega
        rw [ih (l.drop 10) hdrop, List.take_append_drop]

theorem chunksOf10_join (l : List Ident) : (chunksOf10 l).flatten = l :=
  chunksOf10_join_aux l.length l (le_refl _)

theorem chunksOf10_size (l : List Ident) :
    ∀ c ∈ chunksOf10 l, c.length ≤ 10 := by
  intro c hc
  rcases List.mem_map.mp hc with ⟨k, _, rfl⟩
  simp [List.length_take]

theorem scrapTracksGo_requests (oracle : Nat → ReloadResponse) (ext : Nat → ℚ)
    (dec : Audio → Track) (hwf : ∀ k, (oracle k).data? ≠ none) :
    ∀ (cs : List (List Ident)) (k : Nat) (t last : ℚ),
      (scrapTracksGo oracle ext dec k t last cs).1.map Prod.fst
        = cs.map chunkPayload := by
  intro cs
  induction cs with
  | nil => intro k t last; rfl
  | cons c rest ih =>
      intro k t last
      cases hd : (oracle k).data? with
      | none => exact absurd hd (hwf k)
      | some data =>
          simp only [scrapTracksGo, hd, List.map_cons, List.map]
          exact congrArg (chunkPayload c :: ·) (ih (k + 1) _ _)

/-- C1.  One `scrap_tracks` call over N identities issues exactly
ceil(N/10) resolving requests (none for N = 0): the identity list is cut
into the consecutive chunks of at most 10 produced by the range
comprehension, one request per chunk in order, each with the
comma-joined list of the chunk's underscore-joined 4-tuples as payload.
(The well-formedness hypothesis keeps every response's "data" member
present, since a `KeyError` would abort the remaining chunks.) -/
theorem scrapTracks_requests_spec (oracle : Nat → ReloadResponse) (ext : Nat → ℚ)
    (bsoup : String → String) (decodeUrl : String → Int → String)
    (userId : Int) (convert : Bool) (t0 : ℚ) (ids : List Ident)
    (hwf : ∀ k, (oracle k).data? ≠ none) :
    (scrapTracks oracle ext bsoup decodeUrl userId convert t0 ids).1.map Prod.fst
        = (chunksOf10 ids).map chunkPayload
    ∧ (scrapTracks oracle ext bsoup decodeUrl userId convert t0 ids).1.length
        = (ids.length + 9) / 10
    ∧ ids.length ≤ 10 * ((ids.length + 9) / 10)
    ∧ (∀ m, ids.length ≤ 10 * m → (ids.length + 9) / 10 ≤ m)
    ∧ (chunksOf10 ids).flatten = ids
    ∧ (∀ c ∈ chunksOf10 ids, c.length ≤ 10)
    ∧ (ids = [] →
        (scrapTracks oracle ext bsoup decodeUrl userId convert t0 ids).1 = []) := by
  have hreq := scrapTracksGo_requests oracle ext
    (decodeAudio bsoup decodeUrl userId convert) hwf (chunksOf10 ids) 0 t0 0
  refine ⟨hreq, ?_, by omega, fun m hm => by omega, chunksOf10_join ids,
    chunksOf10_size ids, ?_⟩
  · have := congrArg List.length hreq
    simpa [chunksOf10] using this
  · intro hnil
    subst hnil
    rfl

/-- C1 witness: 11 identities make 2 chunks, hence 2 requests, under an
oracle whose every response carries an (empty) data member. -/
theorem scrapTracks_requests_spec_witness :
    (∀ k : Nat, ((fun _ => (⟨some [], 0⟩ : ReloadResponse)) k).data? ≠ none)
    ∧ (scrapTracks (fun _ => ⟨some [], 0⟩) (fun _ => 0) id (fun u _ => u) 1 true 0
        (List.replicate 11 ("1", "1", "a", "b"))).1.map Prod.fst
      = (chunksOf10 (List.replicate 11 ("1", "1", "a", "b"))).map chunkPayload :=
  ⟨fun _ h => Option.noConfusion h,
    (scrapTracks_requests_spec _ _ id (fun u _ => u) 1 true 0 _
      (fun _ h => Option.noConfusion h)).1⟩

theorem sleepClock_ge (t last : ℚ) :
    last + rpsDelayReloadAudio ≤ sleepClock t last := by
  unfold sleepClock
  by_cases h : 0 < rpsDelayReloadAudio - (t - last)
  · rw [if_pos h]
    linarith
  · rw [if_neg h]
    linarith

theorem scrapTracksGo_chain (oracle : Nat → ReloadResponse) (ext : Nat → ℚ)
    (dec : Audio → Track) (hdur : ∀ k, 0 ≤ (oracle k).dur) :
    ∀ (cs : List (List Ident)) (k : Nat) (t last : ℚ),
      (∀ p ∈ (scrapTracksGo oracle ext dec k t last cs).1.head?,
        last + rpsDelayReloadAudio ≤ p.2)
      ∧ List.Chain' (fun a b => a.2 + rpsDelayReloadAudio ≤ b.2)
          (scrapTracksGo oracle ext dec k t last cs).1 := by
  intro cs
  induction cs with
  | nil =>
      intro k t last
      exact ⟨by simp [scrapTracksGo], by simp [scrapTracksGo]⟩
  | cons c cs ih =>
      intro k t last
      cases hd : (oracle k).data? with
      | none =>
          refine ⟨?_, ?_⟩
          · intro p hp
            simp only [scrapTracksGo, hd, List.head?_cons, Option.mem_def,
              Option.some.injEq] at hp
            rw [← hp]
            exact sleepClock_ge t last
          · simp [scrapTracksGo, hd]
      | some data =>
          have ihh := ih (k + 1) (sleepClock t last + (oracle k).dur + ext k)
            (sleepClock t last + (oracle k).dur)
          refine ⟨?_, ?_⟩
          · intro p hp
            simp only [scrapTracksGo, hd, List.head?_cons, Option.mem_def,
              Option.some.injEq] at hp
            rw [← hp]
            exact sleepClock_ge t last
          · simp only [scrapTracksGo, hd]
            rw [List.chain'_cons']
            refine ⟨?_, ihh.2⟩
            intro q hq
            have hq2 := ihh.1 q hq
            have hd0 := hdur k
            simp only []
            linarith

/-- C2.  Within one `scrap_tracks` call, consecutive resolving requests
start at least `RPS_DELAY_RELOAD_AUDIO = 1.5` seconds apart: before each
chunk request after the first, the loop computes the time elapsed since
the previous request completed (`last_request` is recorded after
`.json()` returns) and sleeps for the shortfall when it is below 1.5s.
The hypotheses say only that request durations and consumer pauses are
non-negative. -/
theorem scrapTracks_pacing (oracle : Nat → ReloadResponse) (ext : Nat → ℚ)
    (bsoup : String → String) (decodeUrl : String → Int → String)
    (userId : Int) (convert : Bool) (t0 : ℚ) (ids : List Ident)
    (hdur : ∀ k, 0 ≤ (oracle k).dur) :
    List.Chain' (fun a b => a.2 + rpsDelayReloadAudio ≤ b.2)
      (scrapTracks oracle ext bsoup decodeUrl userId convert t0 ids).1 :=
  (scrapTracksGo_chain oracle ext (decodeAudio bsoup decodeUrl userId convert)
    hdur (chunksOf10 ids) 0 t0 0).2

/-- C2 witness: a concrete 2-chunk run with zero-duration requests; the
hypothesis holds trivially and the start times are 1.5s apart. -/
theorem scrapTracks_pacing_witness :
    (∀ k : Nat, 0 ≤ ((fun _ => (⟨some [], 0⟩ : ReloadResponse)) k).dur)
    ∧ List.Chain' (fun a b => a.2 + rpsDelayReloadAudio ≤ b.2)
        (scrapTracks (fun _ => ⟨some [], 0⟩) (fun _ => 0) id (fun u _ => u) 1 true 0
          (List.replicate 11 ("1", "1", "a", "b"))).1 :=
  ⟨fun _ => le_refl 0,
    scrapTracks_pacing _ _ id (fun u _ => u) 1 true 0 _ (fun _ => le_refl 0)⟩

/-- C7 (amended).  A chunk whose resolving response carries a *present
but empty (falsy)* data envelope is silently skipped: the chunk's
request is still issued and recorded, it contributes no tracks and no
error, and the remaining chunks are processed exactly as before. -/
theorem scrapTracks_empty_envelope_skips (oracle : Nat → ReloadResponse)
    (ext : Nat → ℚ) (dec : Audio → Track) (k : Nat) (t last : ℚ)
    (c : List Ident) (cs : List (List Ident))
    (hempty : (oracle k).data? = some []) :
    scrapTracksGo oracle ext dec k t last (c :: cs)
      = ((chunkPayload c, sleepClock t last) ::
          (scrapTracksGo oracle ext dec (k + 1)
            (sleepClock t last + (oracle k).dur + ext k)
            (sleepClock t last + (oracle k).dur) cs).1,
         (scrapTracksGo oracle ext dec (k + 1)
            (sleepClock t last + (oracle k).dur + ext k)
            (sleepClock t last + (oracle k).dur) cs).2) := by
  simp only [scrapTracksGo, hempty]
  refine Prod.ext rfl ?_
  cases hrest : (scrapTracksGo oracle ext dec (k + 1)
      (sleepClock t last + (oracle k).dur + ext k)
      (sleepClock t last + (oracle k).dur) cs).2 with
  | error e => simp [hrest, Except.map]
  | ok zs => simp [hrest, Except.map]

/-- C7 witness: with an empty envelope for chunk 0 and a non-empty one
for chunk 1, the run matches the skipped-chunk shape given by the
theorem. -/
theorem scrapTracks_empty_envelope_skips_witness :
    scrapTracksGo (fun _ => ⟨some [], 0⟩) (fun _ => 0)
        (decodeAudio id (fun u _ => u) 1 true) 0 0 0
        [[("1", "1", "a", "b")], [("2", "2", "c", "d")]]
      = ((chunkPayload [("1", "1", "a", "b")], sleepClock 0 0) ::
          (scrapTracksGo (fun _ => ⟨some [], 0⟩) (fun _ => 0)
            (decodeAudio id (fun u _ => u) 1 true) 1
            (sleepClock 0 0 + 0 + 0) (sleepClock 0 0 + 0)
            [[("2", "2", "c", "d")]]).1,
         (scrapTracksGo (fun _ => ⟨some [], 0⟩) (fun _ => 0)
            (decodeAudio id (fun u _ => u) 1 true) 1
            (sleepClock 0 0 + 0 + 0) (sleepClock 0 0 + 0)
            [[("2", "2", "c", "d")]]).2) :=
  scrapTracks_empty_envelope_skips _ _ _ 0 0 0 _ _ rfl

/-- C7 counterexample: a resolving response with *no* "data" member is
not recovered: the subscript `result['data']` raises `KeyError`, the
call aborts, and the second chunk is never requested — so an "absent"
envelope is an error, contrary to the claim. -/
theorem scrapTracks_absent_envelope_raises :
    (scrapTracks (fun _ => ⟨none, 0⟩) (fun _ => 0) id (fun u _ => u) 1 true 0
        (List.replicate 11 ("1", "1", "a", "b"))).2 = Except.error PyErr.keyError
    ∧ (scrapTracks (fun _ => ⟨none, 0⟩) (fun _ => 0) id (fun u _ => u) 1 true 0
        (List.replicate 11 ("1", "1", "a", "b"))).1.length = 1 :=
  ⟨rfl, rfl⟩

/-- C5 evidence: with the first page reporting `hasMore`, the non-raw
`get_iter` issues its second request at offset 4000, not 2000 — the
offset is incremented at the loop bottom (line 191) and again at the
next loop top (line 147).  The raw path (which skips the loop bottom by
`continue`) steps by 2000 as intended, while `TRACKS_PER_USER_PAGE`,
the configured page size, is 2000. -/
theorem getIter_offset_double_step :
    (getIter (fun o => if o = 0 then ⟨true, true, [aTest]⟩
        else ⟨true, false, [aTest]⟩) id (fun _ => []) false 5).map Prod.fst
      = some [0, 4000]
    ∧ (getIter (fun o => ⟨true, decide (o < 4000), [aTest]⟩)
        id (fun _ => []) true 6).map Prod.fst = some [0, 2000, 4000]
    ∧ TRACKS_PER_USER_PAGE = 2000 :=
  ⟨rfl, rfl, rfl⟩

theorem searchGo_suppressed_page (pages : Nat → SearchPage)
    (bsoup : String → String) (resolve : List Ident → List Track)
    (raw : Bool) (offset fuel k oL : Nat) (ids : List Ident)
    (htr : (pages k).truthy = true)
    (hok : scrapIds (pages k).list = Except.ok ids)
    (hne : ids ≠ [])
    (hlt : oL + ids.length < offset) :
    searchGo pages bsoup resolve raw offset (fuel + 1) k oL
      = searchGo pages bsoup resolve raw offset fuel (k + 1) (oL + ids.length) := by
  have hie : ids.isEmpty = false := by
    cases ids with
    | nil => exact absurd rfl hne
    | cons a l => rfl
  simp only [searchGo, htr, hok, hie]
  rw [if_neg (by simp), if_neg (by simp [hie]), if_neg (by omega)]

theorem searchGo_straddle_page (pages : Nat → SearchPage)
    (bsoup : String → String) (resolve : List Ident → List Track)
    (raw : Bool) (offset fuel k oL : Nat) (ids : List Ident)
    (htr : (pages k).truthy = true)
    (hok : scrapIds (pages k).list = Except.ok ids)
    (hne : ids ≠ [])
    (hlo : oL < offset) (hhi : offset ≤ oL + ids.length) :
    searchGo pages bsoup resolve raw offset (fuel + 1) k oL
      = (searchGo pages bsoup resolve raw offset fuel (k + 1)
          (oL + (ids.drop (offset - oL)).length)).map
          (fun e => e.map (fun zs =>
            (if raw then (pages k).list.map (fun a => Sum.inl (rawAudio bsoup a))
             else (resolve (ids.drop (offset - oL))).map Sum.inr) ++ zs)) := by
  have hie : ids.isEmpty = false := by
    cases ids with
    | nil => exact absurd rfl hne
    | cons a l => rfl
  simp only [searchGo, htr, hok, hie]
  rw [if_neg (by simp), if_neg (by simp [hie]), if_pos hhi, if_pos hlo]

/-- C6.  Search-driver offset semantics: a page whose cumulative
identity count stays below the requested offset yields nothing but its
full identity count still advances the running total; a page straddling
the boundary yields (non-raw) exactly its resolved tail past the
offset; and concretely, for two pages of 5 identities and offset 7, the
run yields nothing from page 1 and exactly the last 3 resolved
identities of page 2 (a run cut after page 1 yields nothing at all). -/
theorem searchIter_offset_semantics :
    (∀ (pages : Nat → SearchPage) (bsoup : String → String)
        (resolve : List Ident → List Track) (raw : Bool)
        (offset fuel k oL : Nat) (ids : List Ident),
      (pages k).truthy = true →
      scrapIds (pages k).list = Except.ok ids →
      ids ≠ [] →
      oL + ids.length < offset →
      searchGo pages bsoup resolve raw offset (fuel + 1) k oL
        = searchGo pages bsoup resolve raw offset fuel (k + 1) (oL + ids.length))
    ∧ (∀ (pages : Nat → SearchPage) (bsoup : String → String)
        (resolve : List Ident → List Track) (offset fuel k oL : Nat)
        (ids : List Ident),
      (pages k).truthy = true →
      scrapIds (pages k).list = Except.ok ids →
      ids ≠ [] →
      oL < offset → offset ≤ oL + ids.length →
      searchGo pages bsoup resolve false offset (fuel + 1) k oL
        = (searchGo pages bsoup resolve false offset fuel (k + 1)
            (oL + (ids.drop (offset - oL)).length)).map
            (fun e => e.map (fun zs =>
              ((resolve (ids.drop (offset - oL))).map Sum.inr) ++ zs)))
    ∧ searchIter searchPages55 id resolveIdsToy false 7 3
        = some (Except.ok ((resolveIdsToy (idents5b.drop 2)).map Sum.inr))
    ∧ searchIter searchPages5stop id resolveIdsToy false 7 2
        = some (Except.ok []) := by
  refine ⟨searchGo_suppressed_page, ?_, rfl, rfl⟩
  intro pages bsoup resolve offset fuel k oL ids htr hok hne hlo hhi
  have h := searchGo_straddle_page pages bsoup resolve false offset fuel k oL
    ids htr hok hne hlo hhi
  simpa using h

/-- C6 witness: the suppressed-page clause applied to the concrete first
page (5 identities, offset 7). -/
theorem searchIter_offset_semantics_witness :
    searchGo searchPages55 id resolveIdsToy false 7 3 0 0
      = searchGo searchPages55 id resolveIdsToy false 7 2 1 5 :=
  searchIter_offset_semantics.1 searchPages55 id resolveIdsToy false 7 2 0 0
    idents5a rfl rfl (by decide) (by decide)

/-- C10.  In raw mode the caller offset suppresses whole pages only: a
page wholly before the boundary yields nothing, but a straddling page
yields every raw record of the page (the tail-slicing of the identity
list only affects the `offset_left` accounting and the non-raw path).
Concretely, with pages of 5 and 5 and offset 7, the raw run yields all
5 raw records of page 2. -/
theorem searchIter_raw_whole_page :
    (∀ (pages : Nat → SearchPage) (bsoup : String → String)
        (resolve : List Ident → List Track) (offset fuel k oL : Nat)
        (ids : List Ident),
      (pages k).truthy = true →
      scrapIds (pages k).list = Except.ok ids →
      ids ≠ [] →
      oL < offset → offset ≤ oL + ids.length →
      searchGo pages bsoup resolve true offset (fuel + 1) k oL
        = (searchGo pages bsoup resolve true offset fuel (k + 1)
            (oL + (ids.drop (offset - oL)).length)).map
            (fun e => e.map (fun zs =>
              ((pages k).list.map (fun a => Sum.inl (rawAudio bsoup a))) ++ zs)))
    ∧ (∀ (pages : Nat → SearchPage) (bsoup : String → String)
        (resolve : List Ident → List Track) (offset fuel k oL : Nat)
        (ids : List Ident),
      (pages k).truthy = true →
      scrapIds (pages k).list = Except.ok ids →
      ids ≠ [] →
      oL + ids.length < offset →
      searchGo pages bsoup resolve true offset (fuel + 1) k oL
        = searchGo pages bsoup resolve true offset fuel (k + 1) (oL + ids.length))
    ∧ searchIter searchPages55 id resolveIdsToy true 7 3
        = some (Except.ok (page5b.map (fun a => Sum.inl (rawAudio id a)))) := by
  refine ⟨?_, ?_, rfl⟩
  · intro pages bsoup resolve offset fuel k oL ids htr hok hne hlo hhi
    have h := searchGo_straddle_page pages bsoup resolve true offset fuel k oL
      ids htr hok hne hlo hhi
    simpa using h
  · intro pages bsoup resolve offset fuel k oL ids htr hok hne hlt
    exact searchGo_suppressed_page pages bsoup resolve true offset fuel k oL
      ids htr hok hne hlt

/-- C10 witness: the straddle clause applied to the concrete second page
(5 identities, running total 5, offset 7): the whole raw page is
yielded. -/
theorem searchIter_raw_whole_page_witness :
    searchGo searchPages55 id resolveIdsToy true 7 2 1 5
      = (searchGo searchPages55 id resolveIdsToy true 7 1 2
          (5 + (idents5b.drop 2).length)).map
          (fun e => e.map (fun zs =>
            ((searchPages55 1).list.map (fun a => Sum.inl (rawAudio id a))) ++ zs)) :=
  searchIter_raw_whole_page.1 searchPages55 id resolveIdsToy 7 1 1 5 idents5b
    rfl rfl (by decide) (by decide) (by decide)

theorem getIterGo_none_eq (pages : Nat → SectionPage) (bsoup : String → String)
    (resolve : List Ident → List Track) (raw : Bool) (d fuel o : Nat) :
    getIterGo pages bsoup resolve raw d (fuel + 1) o none =
      (if !(pages o).nonEmpty then some ([o], Except.error PyErr.accessDenied)
       else if raw then
         consRun o ((pages o).list.map (fun a => Sum.inl (rawAudio bsoup a)))
           (getIterGo pages bsoup resolve raw d fuel o (some (pages o)))
       else
         match scrapIds (pages o).list with
         | Except.error e => some ([o], Except.error e)
         | Except.ok ids =>
           if ids.isEmpty then some ([o], Except.ok [])
           else if (pages o).hasMore then
             consRun o ((resolve ids).map Sum.inr)
               (getIterGo pages bsoup resolve raw d fuel (o + d) (some (pages o)))
           else some ([o], Except.ok ((resolve ids).map Sum.inr))) := by
  simp only [getIterGo]
  rw [if_neg (by simp)]

theorem getIterGo_some_stop (pages : Nat → SectionPage) (bsoup : String → String)
    (resolve : List Ident → List Track) (raw : Bool) (d fuel o : Nat)
    (r : SectionPage) (h : r.hasMore = false) :
    getIterGo pages bsoup resolve raw d (fuel + 1) o (some r)
      = some ([], Except.ok []) := by
  simp [getIterGo, h]

theorem getIterGo_some_continue (pages : Nat → SectionPage) (bsoup : String → String)
    (resolve : List Ident → List Track) (raw : Bool) (d fuel o : Nat)
    (r : SectionPage) (h : r.hasMore = true) :
    getIterGo pages bsoup resolve raw d (fuel + 1) o (some r)
      = getIterGo pages bsoup resolve raw d (fuel + 1) (o + d) none := by
  simp only [getIterGo, h, Bool.not_true, if_true]


theorem getIterGo_mono (pages : Nat → SectionPage) (bsoup : String → String)
    (resolve : List Ident → List Track) (raw : Bool) (d : Nat) :
    ∀ fuel o prev res,
      getIterGo pages bsoup resolve raw d fuel o prev = some res →
      getIterGo pages bsoup resolve raw d (fuel + 1) o prev = some res := by
  intro fuel
  induction fuel with
  | zero =>
      intro o prev res h
      exact absurd h (by simp [getIterGo])
  | succ f ih =>
      have hnone : ∀ o res,
          getIterGo pages bsoup resolve raw d (f + 1) o none = some res →
          getIterGo pages bsoup resolve raw d (f + 1 + 1) o none = some res := by
        intro o res h
        rw [getIterGo_none_eq pages bsoup resolve raw d f o] at h
        rw [getIterGo_none_eq pages bsoup resolve raw d (f + 1) o]
        by_cases hne : (!(pages o).nonEmpty) = true
        · rw [if_pos hne] at h
          rw [if_pos hne]
          exact h
        · rw [if_neg hne] at h
          rw [if_neg hne]
          by_cases hraw : raw = true
          · rw [if_pos hraw] at h
            rw [if_pos hraw]
            cases hrec : getIterGo pages bsoup resolve raw d f o (some (pages o)) with
            | none =>
                rw [hrec] at h
                exact absurd h (by simp [consRun])
            | some p =>
                rw [hrec] at h
                rw [ih o (some (pages o)) p hrec]
                exact h
          · rw [if_neg hraw] at h
            rw [if_neg hraw]
            cases hids : scrapIds (pages o).list with
            | error e =>
                rw [hids] at h
                exact h
            | ok ids =>
                rw [hids] at h
                have h2 : (if ids.isEmpty = true then some ([o], Except.ok [])
                    else if (pages o).hasMore = true then
                      consRun o (List.map Sum.inr (resolve ids))
                        (getIterGo pages bsoup resolve raw d f (o + d)
                          (some (pages o)))
                    else some ([o], Except.ok (List.map Sum.inr (resolve ids))))
                    = some res := h
                show (if ids.isEmpty = true then some ([o], Except.ok [])
                    else if (pages o).hasMore = true then
                      consRun o (List.map Sum.inr (resolve ids))
                        (getIterGo pages bsoup resolve raw d (f + 1) (o + d)
                          (some (pages o)))
                    else some ([o], Except.ok (List.map Sum.inr (resolve ids))))
                    = some res
                clear h
                by_cases hie : ids.isEmpty = true
                · rw [if_pos hie] at h2
                  rw [if_pos hie]
                  exact h2
                · rw [if_neg hie] at h2
                  rw [if_neg hie]
                  by_cases hm : (pages o).hasMore = true
                  · rw [if_pos hm] at h2
                    rw [if_pos hm]
                    cases hrec : getIterGo pages bsoup resolve raw d f (o + d)
                        (some (pages o)) with
                    | none =>
                        rw [hrec] at h2
                        exact absurd h2 (by simp [consRun])
                    | some p =>
                        rw [hrec] at h2
                        rw [ih (o + d) (some (pages o)) p hrec]
                        exact h2
                  · rw [if_neg hm] at h2
                    rw [if_neg hm]
                    exact h2
      intro o prev res h
      cases prev with
      | none => exact hnone o res h
      | some r =>
          cases hr : r.hasMore with
          | false =>
              rw [getIterGo_some_stop pages bsoup resolve raw d f o r hr] at h
              rw [getIterGo_some_stop pages bsoup resolve raw d (f + 1) o r hr]
              exact h
          | true =>
              rw [getIterGo_some_continue pages bsoup resolve raw d f o r hr] at h
              rw [getIterGo_some_continue pages bsoup resolve raw d (f + 1) o r hr]
              exact hnone (o + d) res h

theorem getIterGo_mono_le (pages : Nat → SectionPage) (bsoup : String → String)
    (resolve : List Ident → List Track) (raw : Bool) (d f fp : Nat) (hle : f ≤ fp)
    (o : Nat) (prev : Option SectionPage)
    (res : List Nat × Except PyErr (List (Audio ⊕ Track)))
    (h : getIterGo pages bsoup resolve raw d f o prev = some res) :
    getIterGo pages bsoup resolve raw d fp o prev = some res := by
  induction fp, hle using Nat.le_induction with
  | base => exact h
  | succ m hm ihm => exact getIterGo_mono pages bsoup resolve raw d m o prev res ihm

theorem getIterGo_term (pages : Nat → SectionPage) (bsoup : String → String)
    (resolve : List Ident → List Track) (raw : Bool) (d : Nat) :
    ∀ K : Nat, ∀ o : Nat,
      (∀ j, j ≤ K → (pages (o + j * (if raw then d else 2 * d))).nonEmpty = true) →
      (raw = false → ∀ j, j ≤ K →
        ∃ ids, scrapIds (pages (o + j * (if raw then d else 2 * d))).list
          = Except.ok ids) →
      ((pages (o + K * (if raw then d else 2 * d))).hasMore = false
        ∨ (raw = false ∧
           scrapIds (pages (o + K * (if raw then d else 2 * d))).list
             = Except.ok [])) →
      ∃ res, getIterGo pages bsoup resolve raw d (K + 1 + 1) o none = some res := by
  intro K
  induction K with
  | zero =>
      intro o hne hok hstop
      have hne0 : (pages o).nonEmpty = true := by simpa using hne 0 (Nat.zero_le _)
      have hstop0 : (pages o).hasMore = false
          ∨ (raw = false ∧ scrapIds (pages o).list = Except.ok []) := by
        simpa using hstop
      by_cases hraw : raw = true
      · have hmf : (pages o).hasMore = false := by
          rcases hstop0 with h1 | ⟨h2a, _⟩
          · exact h1
          · rw [hraw] at h2a
            exact absurd h2a (by simp)
        refine ⟨([o], Except.ok
            (((pages o).list.map (fun a => Sum.inl (rawAudio bsoup a))) ++ [])), ?_⟩
        rw [getIterGo_none_eq pages bsoup resolve raw d (0 + 1) o]
        rw [if_neg (by simp [hne0]), if_pos hraw]
        rw [getIterGo_some_stop pages bsoup resolve raw d 0 o (pages o) hmf]
        rfl
      · have hrawf : raw = false := by
          cases raw with
          | false => rfl
          | true => exact absurd rfl hraw
        obtain ⟨ids0, hids0⟩ : ∃ ids, scrapIds (pages o).list = Except.ok ids := by
          simpa using hok hrawf 0 (Nat.zero_le _)
        cases ids0 with
        | nil =>
            refine ⟨([o], Except.ok []), ?_⟩
            rw [getIterGo_none_eq pages bsoup resolve raw d (0 + 1) o]
            simp [hne0, hraw, hids0]
        | cons a l =>
            have hmf : (pages o).hasMore = false := by
              rcases hstop0 with h1 | ⟨_, h2b⟩
              · exact h1
              · rw [hids0] at h2b
                simp at h2b
            refine ⟨([o], Except.ok ((resolve (a :: l)).map Sum.inr)), ?_⟩
            rw [getIterGo_none_eq pages bsoup resolve raw d (0 + 1) o]
            simp [hne0, hraw, hids0, hmf]
  | succ n ih =>
      intro o hne hok hstop
      have hne0 : (pages o).nonEmpty = true := by simpa using hne 0 (Nat.zero_le _)
      by_cases hraw : raw = true
      · by_cases hm0 : (pages o).hasMore = true
        · have hcont := getIterGo_some_continue pages bsoup resolve raw d (n + 1) o
            (pages o) hm0
          have hne2 : ∀ j, j ≤ n →
              (pages (o + d + j * (if raw then d else 2 * d))).nonEmpty = true := by
            intro j hj
            have hx := hne (j + 1) (by omega)
            have harith : o + (j + 1) * (if raw then d else 2 * d)
                = o + d + j * (if raw then d else 2 * d) := by
              rw [if_pos hraw]
              ring
            rw [harith] at hx
            exact hx
          have hok2 : raw = false → ∀ j, j ≤ n →
              ∃ ids, scrapIds (pages (o + d + j * (if raw then d else 2 * d))).list
                = Except.ok ids := by
            intro hf
            rw [hraw] at hf
            exact absurd hf (by simp)
          have hstop2 : (pages (o + d + n * (if raw then d else 2 * d))).hasMore = false
              ∨ (raw = false ∧
                 scrapIds (pages (o + d + n * (if raw then d else 2 * d))).list
                   = Except.ok []) := by
            have harith : o + (n + 1) * (if raw then d else 2 * d)
                = o + d + n * (if raw then d else 2 * d) := by
              rw [if_pos hraw]
              ring
            rw [harith] at hstop
            exact hstop
          obtain ⟨res1, hres1⟩ := ih (o + d) hne2 hok2 hstop2
          refine ⟨(o :: res1.1, res1.2.map (fun zs =>
            ((pages o).list.map (fun a => Sum.inl (rawAudio bsoup a))) ++ zs)), ?_⟩
          rw [getIterGo_none_eq pages bsoup resolve raw d (n + 1 + 1) o]
          rw [if_neg (by simp [hne0]), if_pos hraw]
          rw [hcont, hres1]
          rfl
        · have hmf : (pages o).hasMore = false := by
            cases hpm : (pages o).hasMore with
            | false => rfl
            | true => exact absurd hpm hm0
          refine ⟨([o], Except.ok
              (((pages o).list.map (fun a => Sum.inl (rawAudio bsoup a))) ++ [])), ?_⟩
          rw [getIterGo_none_eq pages bsoup resolve raw d (n + 1 + 1) o]
          rw [if_neg (by simp [hne0]), if_pos hraw]
          rw [getIterGo_some_stop pages bsoup resolve raw d (n + 1) o (pages o) hmf]
          rfl
      · have hrawf : raw = false := by
          cases raw with
          | false => rfl
          | true => exact absurd rfl hraw
        obtain ⟨ids0, hids0⟩ : ∃ ids, scrapIds (pages o).list = Except.ok ids := by
          simpa using hok hrawf 0 (Nat.zero_le _)
        cases ids0 with
        | nil =>
            refine ⟨([o], Except.ok []), ?_⟩
            rw [getIterGo_none_eq pages bsoup resolve raw d (n + 1 + 1) o]
            simp [hne0, hraw, hids0]
        | cons a l =>
            by_cases hm0 : (pages o).hasMore = true
            · have hcont := getIterGo_some_continue pages bsoup resolve raw d (n + 1)
                (o + d) (pages o) hm0
              have hne2 : ∀ j, j ≤ n →
                  (pages (o + d + d + j * (if raw then d else 2 * d))).nonEmpty
                    = true := by
                intro j hj
                have hx := hne (j + 1) (by omega)
                have harith : o + (j + 1) * (if raw then d else 2 * d)
                    = o + d + d + j * (if raw then d else 2 * d) := by
                  rw [if_neg hraw]
                  ring
                rw [harith] at hx
                exact hx
              have hok2 : raw = false → ∀ j, j ≤ n →
                  ∃ ids,
                    scrapIds (pages (o + d + d + j * (if raw then d else 2 * d))).list
                      = Except.ok ids := by
                intro _ j hj
                have hx := hok hrawf (j + 1) (by omega)
                have harith : o + (j + 1) * (if raw then d else 2 * d)
                    = o + d + d + j * (if raw then d else 2 * d) := by
                  rw [if_neg hraw]
                  ring
                rw [harith] at hx
                exact hx
              have hstop2 :
                  (pages (o + d + d + n * (if raw then d else 2 * d))).hasMore = false
                  ∨ (raw = false ∧
                     scrapIds
                       (pages (o + d + d + n * (if raw then d else 2 * d))).list
                       = Except.ok []) := by
                have harith : o + (n + 1) * (if raw then d else 2 * d)
                    = o + d + d + n * (if raw then d else 2 * d) := by
                  rw [if_neg hraw]
                  ring
                rw [harith] at hstop
                exact hstop
              obtain ⟨res1, hres1⟩ := ih (o + d + d) hne2 hok2 hstop2
              rw [hrawf] at hcont hres1
              refine ⟨(o :: res1.1, res1.2.map (fun zs =>
                ((resolve (a :: l)).map Sum.inr) ++ zs)), ?_⟩
              rw [getIterGo_none_eq pages bsoup resolve raw d (n + 1 + 1) o]
              simp [hne0, hraw, hrawf, hids0, hm0, hcont, hres1, consRun]
            · have hmf : (pages o).hasMore = false := by
                cases hpm : (pages o).hasMore with
                | false => rfl
                | true => exact absurd hpm hm0
              refine ⟨([o], Except.ok ((resolve (a :: l)).map Sum.inr)), ?_⟩
              rw [getIterGo_none_eq pages bsoup resolve raw d (n + 1 + 1) o]
              simp [hne0, hraw, hids0, hmf]

theorem newsGo_succ_eq (pages : Nat → List Audio)
    (resolve : List Ident → List Track) (offset fuel k oL : Nat) :
    newsGo pages resolve offset (fuel + 1) k oL =
      (match scrapIds (pages k) with
       | Except.error e => some (Except.error e)
       | Except.ok ids =>
         if ids.isEmpty then some (Except.ok [])
         else
           (newsGo pages resolve offset fuel (k + 1) (oL + ids.length)).map
             (fun e => e.map (fun zs =>
               (if offset ≤ oL + ids.length then
                  resolve (if offset ≤ oL then ids else ids.drop (offset - oL))
                else []) ++ zs))) := by
  simp only [newsGo]

theorem newsGo_mono (pages : Nat → List Audio)
    (resolve : List Ident → List Track) (offset : Nat) :
    ∀ fuel k oL res,
      newsGo pages resolve offset fuel k oL = some res →
      newsGo pages resolve offset (fuel + 1) k oL = some res := by
  intro fuel
  induction fuel with
  | zero =>
      intro k oL res h
      exact absurd h (by simp [newsGo])
  | succ f ih =>
      intro k oL res h
      rw [newsGo_succ_eq pages resolve offset f k oL] at h
      rw [newsGo_succ_eq pages resolve offset (f + 1) k oL]
      cases hids : scrapIds (pages k) with
      | error e =>
          rw [hids] at h
          exact h
      | ok ids =>
          rw [hids] at h
          have h2 : (if ids.isEmpty then some (Except.ok [])
              else
                (newsGo pages resolve offset f (k + 1) (oL + ids.length)).map
                  (fun e => e.map (fun zs =>
                    (if offset ≤ oL + ids.length then
                       resolve (if offset ≤ oL then ids else ids.drop (offset - oL))
                     else []) ++ zs))) = some res := h
          show (if ids.isEmpty then some (Except.ok [])
              else
                (newsGo pages resolve offset (f + 1) (k + 1) (oL + ids.length)).map
                  (fun e => e.map (fun zs =>
                    (if offset ≤ oL + ids.length then
                       resolve (if offset ≤ oL then ids else ids.drop (offset - oL))
                     else []) ++ zs))) = some res
          clear h
          by_cases hie : ids.isEmpty = true
          · rw [if_pos hie] at h2
            rw [if_pos hie]
            exact h2
          · rw [if_neg hie] at h2
            rw [if_neg hie]
            cases hrec : newsGo pages resolve offset f (k + 1) (oL + ids.length) with
            | none =>
                rw [hrec] at h2
                exact absurd h2 (by simp)
            | some p =>
                rw [hrec] at h2
                rw [ih (k + 1) (oL + ids.length) p hrec]
                exact h2

theorem newsGo_mono_le (pages : Nat → List Audio)
    (resolve : List Ident → List Track) (offset f fp : Nat) (hle : f ≤ fp)
    (k oL : Nat) (res : Except PyErr (List Track))
    (h : newsGo pages resolve offset f k oL = some res) :
    newsGo pages resolve offset fp k oL = some res := by
  induction fp, hle using Nat.le_induction with
  | base => exact h
  | succ m hm ihm => exact newsGo_mono pages resolve offset m k oL res ihm

theorem newsGo_term (pages : Nat → List Audio)
    (resolve : List Ident → List Track) (offset : Nat) :
    ∀ K : Nat, ∀ k0 : Nat,
      (∀ j, j ≤ K → ∃ ids, scrapIds (pages (k0 + j)) = Except.ok ids) →
      scrapIds (pages (k0 + K)) = Except.ok [] →
      ∀ oL, ∃ res, newsGo pages resolve offset (K + 1) k0 oL = some res := by
  intro K
  induction K with
  | zero =>
      intro k0 hok hstop oL
      have hstop0 : scrapIds (pages k0) = Except.ok [] := by simpa using hstop
      refine ⟨Except.ok [], ?_⟩
      rw [newsGo_succ_eq pages resolve offset 0 k0 oL]
      simp [hstop0]
  | succ n ih =>
      intro k0 hok hstop oL
      obtain ⟨ids0, hids0⟩ : ∃ ids, scrapIds (pages k0) = Except.ok ids := by
        simpa using hok 0 (Nat.zero_le _)
      cases ids0 with
      | nil =>
          refine ⟨Except.ok [], ?_⟩
          rw [newsGo_succ_eq pages resolve offset (n + 1) k0 oL]
          simp [hids0]
      | cons a l =>
          have hok2 : ∀ j, j ≤ n → ∃ ids, scrapIds (pages (k0 + 1 + j)) = Except.ok ids := by
            intro j hj
            have hx := hok (j + 1) (by omega)
            have harith : k0 + (j + 1) = k0 + 1 + j := by omega
            rw [harith] at hx
            exact hx
          have hstop2 : scrapIds (pages (k0 + 1 + n)) = Except.ok [] := by
            have harith : k0 + (n + 1) = k0 + 1 + n := by omega
            rw [harith] at hstop
            exact hstop
          obtain ⟨res1, hres1⟩ := ih (k0 + 1) hok2 hstop2 (oL + (a :: l).length)
          refine ⟨res1.map (fun zs =>
            (if offset ≤ oL + (a :: l).length then
               resolve (if offset ≤ oL then a :: l else (a :: l).drop (offset - oL))
             else []) ++ zs), ?_⟩
          rw [newsGo_succ_eq pages resolve offset (n + 1) k0 oL]
          simp [hids0]
          exact ⟨res1, by simpa using hres1, rfl⟩
/-- C8.  Pagination drivers terminate.  For `get_iter`: if every page
the driver visits (offsets step by `d` in raw mode and by `2*d` in
non-raw mode, starting at 0) has a truthy container and well-formed
records, and the page visited at step K reports no more pages (or, in
non-raw mode, yields an empty identity list), then the run stabilizes:
one fixed finite result is produced for every fuel beyond K+2.  For the
`get_news_iter` loop: if every page up to step K2 is well-formed and the
page at step K2 yields no identities, the run stabilizes likewise. -/
theorem pagination_drivers_terminate
    (pages : Nat → SectionPage) (npages : Nat → List Audio)
    (bsoup : String → String) (resolve : List Ident → List Track)
    (raw : Bool) (d offset oL0 K K2 : Nat)
    (hne : ∀ j, j ≤ K → (pages (j * (if raw then d else 2 * d))).nonEmpty = true)
    (hok : raw = false → ∀ j, j ≤ K →
      ∃ ids, scrapIds (pages (j * (if raw then d else 2 * d))).list = Except.ok ids)
    (hstop : (pages (K * (if raw then d else 2 * d))).hasMore = false
      ∨ (raw = false ∧
         scrapIds (pages (K * (if raw then d else 2 * d))).list = Except.ok []))
    (hok2 : ∀ j, j ≤ K2 → ∃ ids, scrapIds (npages j) = Except.ok ids)
    (hstop2 : scrapIds (npages K2) = Except.ok []) :
    (∃ res, ∀ fuel, K + 2 ≤ fuel →
      getIterGo pages bsoup resolve raw d fuel 0 none = some res)
    ∧ (∃ res2, ∀ fuel, K2 + 1 ≤ fuel →
      newsGo npages resolve offset fuel 0 oL0 = some res2) := by
  constructor
  · obtain ⟨res, hres⟩ := getIterGo_term pages bsoup resolve raw d K 0
      (fun j hj => by simpa using hne j hj)
      (fun hf j hj => by simpa using hok hf j hj)
      (by simpa using hstop)
    exact ⟨res, fun fuel hf =>
      getIterGo_mono_le pages bsoup resolve raw d (K + 1 + 1) fuel (by omega)
        0 none res hres⟩
  · obtain ⟨res2, hres2⟩ := newsGo_term npages resolve offset K2 0
      (fun j hj => by simpa using hok2 j hj)
      (by simpa using hstop2) oL0
    exact ⟨res2, fun fuel hf =>
      newsGo_mono_le npages resolve offset (K2 + 1) fuel (by omega)
        0 oL0 res2 hres2⟩

/-- C8 witness: a single page with `hasMore` false (listing driver) and
a first catalog page with no identities (news loop) both stabilize at
once. -/
theorem pagination_drivers_terminate_witness :
    (∃ res, ∀ fuel, 0 + 2 ≤ fuel →
      getIterGo (fun _ => ⟨true, false, [aTest]⟩) id (fun _ => []) false 2000
        fuel 0 none = some res)
    ∧ (∃ res2, ∀ fuel, 0 + 1 ≤ fuel →
      newsGo (fun _ => []) (fun _ => []) 0 fuel 0 0 = some res2) :=
  pagination_drivers_terminate (fun _ => ⟨true, false, [aTest]⟩) (fun _ => [])
    id (fun _ => []) false 2000 0 0 0 0
    (fun _ _ => rfl) (fun _ _ _ => ⟨[("1", "1", "c", "f")], rfl⟩) (Or.inl rfl)
    (fun _ _ => ⟨[], rfl⟩) rfl

end VkApiAudio
